import Mathlib

/-!
Verification of the Diaryx entry store (src/src-tauri/src/lib.rs).

The Rust code is a file-backed journal store with five Tauri commands:
`get_journal_entries` (list), `get_journal_entry` (get), `save_journal_entry`
(save), `create_journal_entry` (create) and `delete_journal_entry` (delete).

We shallowly embed the code: Rust `String`s become `List Char` (Rust strings
are sequences of Unicode scalar values; `.chars()` iterates them and `.len()`
is the UTF-8 byte length, which we model with `utf8Size`), the file system
becomes an explicit `FS` state with per-file success oracles for the fallible
system calls, and each command becomes a Lean function returning
`Except StoreError`.
-/

/-- Rust strings are sequences of Unicode scalar values; we model them as
`List Char` so that `.chars()`-based operations are direct. -/
abbrev RStr := List Char

/-- UTF-8 encoded size in bytes of one Unicode scalar value, as used by
Rust `str::len`. -/
def utf8Size (c : Char) : Nat :=
  if c.toNat < 0x80 then 1
  else if c.toNat < 0x800 then 2
  else if c.toNat < 0x10000 then 3
  else 4

/-- Embeds Rust `str::len`: the length of the string in BYTES (not characters). -/
def rustLen (s : RStr) : Nat := (s.map utf8Size).sum

/-- Splits at every `'\n'`, also consuming a `'\r'` that immediately precedes
a `'\n'` (the `"\r\n"` line ending); the result always has one more element
than the number of line endings. Helper for `rustLines`. -/
def splitNl : RStr → List RStr
  | [] => [[]]
  | '\r' :: '\n' :: cs => [] :: splitNl cs
  | '\n' :: cs => [] :: splitNl cs
  | c :: cs =>
    match splitNl cs with
    | [] => [[c]]
    | l :: ls => (c :: l) :: ls

/-- Drops a trailing empty segment, so that a final line terminator does not
produce an extra empty line. Helper for `rustLines`. -/
def dropLastEmpty (ls : List RStr) : List RStr :=
  match ls.getLast? with
  | some [] => ls.dropLast
  | _ => ls

/-- Embeds Rust `str::lines`: split at `'\n'` or `"\r\n"`; the final line ending is
optional ("".lines() = [], "a\n".lines() = ["a"], "a\n\n".lines() = ["a",""]). -/
def rustLines (s : RStr) : List RStr := dropLastEmpty (splitNl s)

/-- Embeds Rust `str::trim_start_matches('#')`: remove every leading `'#'`. -/
def trimStartHash : RStr → RStr
  | '#' :: cs => trimStartHash cs
  | s => s

/-- Embeds Rust `char::is_whitespace`: the Unicode `White_Space` property
(U+0009..U+000D, U+0020, U+0085, U+00A0, U+1680, U+2000..U+200A, U+2028,
U+2029, U+202F, U+205F, U+3000). -/
def rustIsWhitespace (c : Char) : Bool :=
  (0x09 ≤ c.toNat && c.toNat ≤ 0x0D) || c.toNat = 0x20 || c.toNat = 0x85 ||
  c.toNat = 0xA0 || c.toNat = 0x1680 ||
  (0x2000 ≤ c.toNat && c.toNat ≤ 0x200A) || c.toNat = 0x2028 ||
  c.toNat = 0x2029 || c.toNat = 0x202F || c.toNat = 0x205F || c.toNat = 0x3000

/-- Embeds Rust `str::trim_start`. -/
def rustTrimStart (s : RStr) : RStr := s.dropWhile rustIsWhitespace

/-- Embeds Rust `str::trim_end`. -/
def rustTrimEnd (s : RStr) : RStr := (s.reverse.dropWhile rustIsWhitespace).reverse

/-- Embeds Rust `str::trim`: strip Unicode whitespace from both ends. -/
def rustTrim (s : RStr) : RStr := rustTrimEnd (rustTrimStart s)

/-- Embeds Rust `Vec::join` with separator `"\n"`. -/
def joinNl : List RStr → RStr
  | [] => []
  | [l] => l
  | l :: ls => l ++ '\n' :: joinNl ls

/-- The title derivation shared by `get_journal_entries` and
`get_journal_entry`: first line with leading `'#'`s and surrounding
whitespace stripped; if that is empty (or there is no first line), fall back
(to the file stem in `list`, to the id in `get`). -/
def deriveTitle (content : RStr) (fallback : RStr) : RStr :=
  match (rustLines content).head? with
  | none => fallback
  | some line =>
    let t := rustTrim (trimStartHash line)
    if t = [] then fallback else t

/-- Embeds `content.lines().skip(1).collect::<Vec<_>>().join("\n")` from
`get_journal_entries`: the content with the first (title) line removed. -/
def contentWithoutTitle (content : RStr) : RStr :=
  joinNl ((rustLines content).drop 1)

/-- The ellipsis marker `"..."` appended to truncated previews. -/
def ellipsisMarker : RStr := ['.', '.', '.']

/-- The preview computation of `get_journal_entries` (lib.rs lines 72-80):
`content_without_title.chars().take(150).collect::<String>() +
 if content_without_title.len() > 150 { "..." } else { "" }`.
Note the truncation counts CHARACTERS but the ellipsis test `len() > 150`
counts BYTES. -/
def rustPreview (content : RStr) : RStr :=
  let b := contentWithoutTitle content
  b.take 150 ++ (if 150 < rustLen b then ellipsisMarker else [])

/-- The first line's stripped form of a content string: the first line with
leading `'#'`s and surrounding whitespace removed — the quantity the title
derivation starts from, without the emptiness fallback. -/
def strippedFirstLine (content : RStr) : RStr :=
  rustTrim (trimStartHash ((rustLines content).headD []))

/-- Structure `JournalEntry` (lib.rs lines 6-14). Timestamps are modelled as `Nat`
instants (`DateTime<Utc>` is a point in time; only its order matters here). -/
structure JournalEntry where
  id : RStr
  title : RStr
  content : RStr
  created_at : Nat
  modified_at : Nat
  file_path : RStr
deriving DecidableEq, Repr

/-- Structure `JournalEntryMetadata` (lib.rs lines 16-24). -/
structure JournalEntryMetadata where
  id : RStr
  title : RStr
  created_at : Nat
  modified_at : Nat
  file_path : RStr
  preview : RStr
deriving DecidableEq, Repr

/-- The error outcomes of the five commands. The Rust code returns
`Err(String)`; each constructor stands for one of its `format!` messages:
`homeDirUnavailable` = "Failed to get home directory",
`createDirFailed` = "Failed to create directory: …",
`metadataFailed` = "Failed to read metadata: …" / "Failed to get modified
time: …" (the two per-file metadata calls), `readFileFailed` = "Failed to
read file: …", `entryNotFound` = "Entry not found",
`writeFileFailed` = "Failed to write file: …",
`deleteFileFailed` = "Failed to delete file: …". -/
inductive StoreError where
  | homeDirUnavailable
  | createDirFailed
  | metadataFailed
  | readFileFailed
  | entryNotFound
  | writeFileFailed
  | deleteFileFailed
deriving DecidableEq, Repr

deriving instance DecidableEq for Except

/-- One directory entry of the entries directory: its file name (with
extension), its content and modification time, and oracles for the fallible
per-file system calls: `entryOk` models the `Result` wrapping each
`read_dir` item, `readOk` whether `fs::read_to_string` succeeds, `metaOk`
whether `fs::metadata` and `.modified()` succeed, `removeOk` whether
`fs::remove_file` would succeed. -/
structure DirEntry where
  name : RStr
  content : RStr
  mtime : Nat
  entryOk : Bool
  readOk : Bool
  metaOk : Bool
  removeOk : Bool
deriving DecidableEq, Repr

/-- The file-system state seen by the store: whether the home directory
resolves (`dirs::home_dir()`), the home path, whether the entries directory
exists, oracles for `fs::create_dir_all`, `fs::read_dir` and `fs::write`,
and the files in the entries directory (in directory-iteration order). -/
structure FS where
  homeOk : Bool
  home : RStr
  dirExists : Bool
  mkdirOk : Bool
  readDirOk : Bool
  writeOk : Bool
  files : List DirEntry
deriving DecidableEq, Repr

/-- Path `home.join("Documents").join("Diaryx").join("entries")`. -/
def entriesDirPath (home : RStr) : RStr :=
  home ++ "/Documents/Diaryx/entries".data

/-- The path of a file inside the entries directory. -/
def entryFilePath (home : RStr) (name : RStr) : RStr :=
  entriesDirPath home ++ '/' :: name

/-- Suffix `".md"`, appended to an id by `format!("{}.md", id)`. -/
def mdDotExt : RStr := ['.', 'm', 'd']

/-- Embeds Rust `Path::file_stem` and `Path::extension` on a file name: split at the
last `'.'` provided something nonempty precedes it; otherwise the whole name
is the stem and there is no extension. -/
def fileStemExt (name : RStr) : RStr × Option RStr :=
  let r := name.reverse
  let afterR := r.takeWhile (fun c => c ≠ '.')
  match r.dropWhile (fun c => c ≠ '.') with
  | [] => (name, none)
  | _ :: beforeR =>
    if beforeR = [] then (name, none)
    else (beforeR.reverse, some afterR.reverse)

/-- The extension test of the listing loop:
`path.extension().and_then(|s| s.to_str()) == Some("md")`. -/
def isMdName (name : RStr) : Bool := (fileStemExt name).2 = some ['m', 'd']

/-- Models `path.exists()` on `<entries dir>/<name>`: the directory exists and
contains a file of that name. -/
def findFile (fs : FS) (name : RStr) : Option DirEntry :=
  if fs.dirExists then fs.files.find? (fun e => e.name = name) else none

/-- The `JournalEntryMetadata` built for one successfully processed file in
`get_journal_entries` (lib.rs lines 58-89): id = file stem, title derived
from the first line with the file stem as fallback, `created_at` set to the
modification time ("Using modified as created for simplicity"), and the
preview. -/
def mkMetadata (home : RStr) (e : DirEntry) : JournalEntryMetadata :=
  { id := (fileStemExt e.name).1
    title := deriveTitle e.content (fileStemExt e.name).1
    created_at := e.mtime
    modified_at := e.mtime
    file_path := entryFilePath home e.name
    preview := rustPreview e.content }

/-- The `for entry in dir_entries` loop of `get_journal_entries` (lib.rs
lines 46-93): skip a dirent whose `Result` is `Err`, skip non-`.md` names,
skip a file whose read fails (`if let Ok(content)`), but ABORT the whole
listing when `fs::metadata` or `.modified()` fails (the `?` operators on
lines 52 and 55); otherwise push the metadata. -/
def processDirents (home : RStr) : List DirEntry → List JournalEntryMetadata →
    Except StoreError (List JournalEntryMetadata)
  | [], acc => .ok acc
  | e :: rest, acc =>
    if e.entryOk then
      if isMdName e.name then
        if e.readOk then
          if e.metaOk then processDirents home rest (acc ++ [mkMetadata home e])
          else .error .metadataFailed
        else processDirents home rest acc
      else processDirents home rest acc
    else processDirents home rest acc

/-- Descending-by-`modified_at` comparison used by the sort on lib.rs line
97: `entries.sort_by(|a, b| b.modified_at.cmp(&a.modified_at))`. -/
def descLe (a b : JournalEntryMetadata) : Prop := b.modified_at ≤ a.modified_at

instance : DecidableRel descLe := fun a b => Nat.decLe b.modified_at a.modified_at

/-- Stable insertion into a descending list: the new element goes after every
already-placed element with an `≥` key, so ties keep the original order —
the same output as Rust's stable `sort_by` with
`|a, b| b.modified_at.cmp(&a.modified_at)` (two stable sorts for one total
preorder agree on every input). -/
def insertDesc (m : JournalEntryMetadata) : List JournalEntryMetadata →
    List JournalEntryMetadata
  | [] => [m]
  | x :: xs =>
    if m.modified_at ≤ x.modified_at then x :: insertDesc m xs else m :: x :: xs

/-- The sort on lib.rs line 97, as a stable insertion sort (see
`insertDesc`). -/
def sortEntries (ms : List JournalEntryMetadata) : List JournalEntryMetadata :=
  ms.foldl (fun acc m => insertDesc m acc) []

/-- Embeds `get_journal_entries` (lib.rs lines 33-100): resolve home, create the
entries directory if missing, iterate the directory (`if let Ok(dir_entries)
= fs::read_dir(..)` — a failing `read_dir` silently yields no entries),
sort descending by modification time. Returns the produced list together
with the file system as left behind (the directory now exists). -/
def get_journal_entries (fs : FS) :
    Except StoreError (List JournalEntryMetadata × FS) :=
  if fs.homeOk then
    if fs.dirExists || fs.mkdirOk then
      let fs1 : FS := { fs with dirExists := true }
      let dirents := if fs1.readDirOk then fs1.files else []
      match processDirents fs.home dirents [] with
      | .error err => .error err
      | .ok ms => .ok (sortEntries ms, fs1)
    else .error .createDirFailed
  else .error .homeDirUnavailable

/-- Embeds `get_journal_entry` (lib.rs lines 103-140): resolve home, path
`<entries>/<id>.md`, `NotFound` when the path does not exist, then read
content and modification time and derive the title with the id as
fallback. Read-only: returns no file-system state. -/
def get_journal_entry (fs : FS) (id : RStr) : Except StoreError JournalEntry :=
  if fs.homeOk then
    match findFile fs (id ++ mdDotExt) with
    | none => .error .entryNotFound
    | some e =>
      if e.readOk then
        if e.metaOk then
          .ok { id := id
                title := deriveTitle e.content id
                content := e.content
                created_at := e.mtime
                modified_at := e.mtime
                file_path := entryFilePath fs.home (id ++ mdDotExt) }
        else .error .metadataFailed
      else .error .readFileFailed
  else .error .homeDirUnavailable

/-- Embeds `fs::write` to `<entries>/<name>`: overwrite the file of that name if it
exists (directory names are unique, so updating the first match is
exhaustive), create it at the end of the directory otherwise; the freshly
written content is readable and stamped with the write time. -/
def updateFile (name content : RStr) (now : Nat) : List DirEntry → List DirEntry
  | [] => [{ name := name, content := content, mtime := now, entryOk := true,
             readOk := true, metaOk := true, removeOk := true }]
  | e :: rest =>
    if e.name = name then
      { e with content := content, mtime := now, readOk := true, metaOk := true } :: rest
    else e :: updateFile name content now rest

/-- Embeds `save_journal_entry` (lib.rs lines 143-157): resolve home, create the
directory if missing, write `content` to `<entries>/<id>.md` in full
(last-writer-wins). `now` is the clock reading the file system stamps the
written file with. -/
def save_journal_entry (fs : FS) (id content : RStr) (now : Nat) :
    Except StoreError FS :=
  if fs.homeOk then
    if fs.dirExists || fs.mkdirOk then
      if fs.writeOk then
        .ok { fs with dirExists := true
                      files := updateFile (id ++ mdDotExt) content now fs.files }
      else .error .writeFileFailed
    else .error .createDirFailed
  else .error .homeDirUnavailable

/-- The UTC instant `Utc::now()`: the broken-down second-resolution fields
used by `format("%Y-%m-%d_%H-%M-%S")`, together with the linear instant the
file system stamps files with. -/
structure UtcTime where
  year : Nat
  month : Nat
  day : Nat
  hour : Nat
  minute : Nat
  second : Nat
  instant : Nat
deriving DecidableEq, Repr

/-- The decimal digit character for `n % 10`. -/
def digitChar (n : Nat) : Char := Char.ofNat (48 + n % 10)

/-- A number zero-padded to two digits, as chrono renders `%m %d %H %M %S`
(faithful for the in-range values these fields take). -/
def pad2 (n : Nat) : RStr := [digitChar (n / 10), digitChar n]

/-- A number zero-padded to four digits, as chrono renders `%Y` for the
years in range. -/
def pad4 (n : Nat) : RStr :=
  [digitChar (n / 1000), digitChar (n / 100), digitChar (n / 10), digitChar n]

/-- Embeds `now.format("%Y-%m-%d_%H-%M-%S").to_string()` (lib.rs line 171). -/
def formatTimestampId (t : UtcTime) : RStr :=
  pad4 t.year ++ '-' :: pad2 t.month ++ '-' :: pad2 t.day ++
  '_' :: pad2 t.hour ++ '-' :: pad2 t.minute ++ '-' :: pad2 t.second

/-- Embeds `create_journal_entry` (lib.rs lines 160-178): resolve home, create the
directory if missing, generate the id from the current UTC instant, write
`format!("# {}\n\n", title)` to `<entries>/<id>.md`, return the id. -/
def create_journal_entry (fs : FS) (title : RStr) (now : UtcTime) :
    Except StoreError (RStr × FS) :=
  if fs.homeOk then
    if fs.dirExists || fs.mkdirOk then
      if fs.writeOk then
        let id := formatTimestampId now
        let content := '#' :: ' ' :: title ++ ['\n', '\n']
        .ok (id, { fs with dirExists := true
                           files := updateFile (id ++ mdDotExt) content
                                      now.instant fs.files })
      else .error .writeFileFailed
    else .error .createDirFailed
  else .error .homeDirUnavailable

/-- Embeds `delete_journal_entry` (lib.rs lines 181-194): resolve home; if
`<entries>/<id>.md` exists remove it (propagating a removal failure),
otherwise succeed as a no-op. -/
def delete_journal_entry (fs : FS) (id : RStr) : Except StoreError FS :=
  if fs.homeOk then
    match findFile fs (id ++ mdDotExt) with
    | none => .ok fs
    | some e =>
      if e.removeOk then
        .ok { fs with
              files := fs.files.filter (fun e2 => !(e2.name = id ++ mdDotExt : Bool)) }
      else .error .deleteFileFailed
  else .error .homeDirUnavailable

/-- A directory file with all system-call oracles succeeding — the normal
case, used to instantiate theorems on concrete inputs. -/
def mkFile (name content : String) (mtime : Nat) : DirEntry :=
  { name := name.data, content := content.data, mtime := mtime,
    entryOk := true, readOk := true, metaOk := true, removeOk := true }

/-- A healthy file-system state holding the given entries directory. -/
def sampleFS (files : List DirEntry) : FS :=
  { homeOk := true, home := "/home/u".data, dirExists := true, mkdirOk := true,
    readDirOk := true, writeOk := true, files := files }

/-- A sample UTC instant: 2026-10-12 03:04:05, instant number 77. -/
def sampleTime : UtcTime :=
  { year := 2026, month := 10, day := 12, hour := 3, minute := 4, second := 5,
    instant := 77 }

theorem insertDesc_mem (m a : JournalEntryMetadata) (l : List JournalEntryMetadata) :
    a ∈ insertDesc m l ↔ a = m ∨ a ∈ l := by
  induction l with
  | nil => simp [insertDesc]
  | cons x xs ih =>
    by_cases h : m.modified_at ≤ x.modified_at <;>
      (simp [insertDesc, h, ih, List.mem_cons]; try tauto)

theorem insertDesc_sorted (m : JournalEntryMetadata) (l : List JournalEntryMetadata)
    (h : l.Pairwise (fun a b => b.modified_at ≤ a.modified_at)) :
    (insertDesc m l).Pairwise (fun a b => b.modified_at ≤ a.modified_at) := by
  induction l with
  | nil => simp [insertDesc]
  | cons x xs ih =>
    rcases List.pairwise_cons.mp h with ⟨hx, hxs⟩
    by_cases hm : m.modified_at ≤ x.modified_at
    · simp only [insertDesc, if_pos hm]
      refine List.pairwise_cons.mpr ⟨?_, ih hxs⟩
      intro y hy
      rcases (insertDesc_mem m y xs).mp hy with rfl | hy
      · exact hm
      · exact hx y hy
    · simp only [insertDesc, if_neg hm]
      refine List.pairwise_cons.mpr ⟨?_, h⟩
      intro y hy
      rcases List.mem_cons.mp hy with rfl | hy
      · omega
      · exact le_trans (hx y hy) (by omega)

theorem sortEntries_sorted (ms : List JournalEntryMetadata) :
    (sortEntries ms).Pairwise (fun a b => b.modified_at ≤ a.modified_at) := by
  suffices h : ∀ acc, acc.Pairwise (fun a b => b.modified_at ≤ a.modified_at) →
      (ms.foldl (fun acc m => insertDesc m acc) acc).Pairwise
        (fun a b => b.modified_at ≤ a.modified_at) by
    exact h [] (by simp)
  induction ms with
  | nil => intro acc hacc; simpa using hacc
  | cons m rest ih =>
    intro acc hacc
    exact ih _ (insertDesc_sorted m acc hacc)

theorem sortEntries_mem (a : JournalEntryMetadata) (ms : List JournalEntryMetadata) :
    a ∈ sortEntries ms ↔ a ∈ ms := by
  suffices h : ∀ acc, (a ∈ ms.foldl (fun acc m => insertDesc m acc) acc ↔ a ∈ acc ∨ a ∈ ms) by
    simpa using h []
  induction ms with
  | nil => intro acc; simp
  | cons m rest ih =>
    intro acc
    rw [List.foldl_cons, ih (insertDesc m acc)]
    simp [insertDesc_mem]
    tauto

theorem processDirents_mem (home : RStr) (l : List DirEntry)
    (acc ms : List JournalEntryMetadata) (h : processDirents home l acc = .ok ms) :
    ∀ m ∈ ms, m ∈ acc ∨ ∃ e ∈ l, e.entryOk = true ∧ isMdName e.name = true ∧
      e.readOk = true ∧ e.metaOk = true ∧ m = mkMetadata home e := by
  induction l generalizing acc with
  | nil =>
    simp only [processDirents] at h
    cases h
    intro m hm; exact Or.inl hm
  | cons e rest ih =>
    intro m hm
    simp only [processDirents] at h
    cases h1 : e.entryOk <;> rw [h1] at h <;> simp only [Bool.false_eq_true, if_false, if_true] at h
    · rcases ih acc h m hm with h' | ⟨e', he', rest'⟩
      · exact Or.inl h'
      · exact Or.inr ⟨e', List.mem_cons_of_mem _ he', rest'⟩
    · cases h2 : isMdName e.name <;> rw [h2] at h <;>
        simp only [Bool.false_eq_true, if_false, if_true] at h
      · rcases ih acc h m hm with h' | ⟨e', he', rest'⟩
        · exact Or.inl h'
        · exact Or.inr ⟨e', List.mem_cons_of_mem _ he', rest'⟩
      · cases h3 : e.readOk <;> rw [h3] at h <;>
          simp only [Bool.false_eq_true, if_false, if_true] at h
        · rcases ih acc h m hm with h' | ⟨e', he', rest'⟩
          · exact Or.inl h'
          · exact Or.inr ⟨e', List.mem_cons_of_mem _ he', rest'⟩
        · cases h4 : e.metaOk <;> rw [h4] at h <;>
            simp only [Bool.false_eq_true, if_false, if_true] at h
          · cases h
          · rcases ih _ h m hm with h' | ⟨e', he', rest'⟩
            · rcases List.mem_append.mp h' with h'' | h''
              · exact Or.inl h''
              · exact Or.inr ⟨e, List.mem_cons_self .., h1, h2, h3, h4, by simpa using h''⟩
            · exact Or.inr ⟨e', List.mem_cons_of_mem _ he', rest'⟩

theorem processDirents_metaFail (home : RStr) (l : List DirEntry)
    (hex : ∃ e ∈ l, e.entryOk = true ∧ isMdName e.name = true ∧ e.readOk = true ∧
      e.metaOk = false) :
    ∀ acc, processDirents home l acc = .error .metadataFailed := by
  induction l with
  | nil => simp at hex
  | cons a rest ih =>
    intro acc
    rcases hex with ⟨e, he, p1, p2, p3, p4⟩
    rcases List.mem_cons.mp he with rfl | he'
    · simp [processDirents, p1, p2, p3, p4]
    · have hrest : ∃ e ∈ rest, e.entryOk = true ∧ isMdName e.name = true ∧
          e.readOk = true ∧ e.metaOk = false := ⟨e, he', p1, p2, p3, p4⟩
      simp only [processDirents]
      cases h1 : a.entryOk <;> simp only [Bool.false_eq_true, if_false, if_true]
      · exact ih hrest acc
      · cases h2 : isMdName a.name <;> simp only [Bool.false_eq_true, if_false, if_true]
        · exact ih hrest acc
        · cases h3 : a.readOk <;> simp only [Bool.false_eq_true, if_false, if_true]
          · exact ih hrest acc
          · cases h4 : a.metaOk <;> simp only [Bool.false_eq_true, if_false, if_true]
            exact ih hrest _

theorem processDirents_skip_read (home : RStr) (e : DirEntry) (he : e.readOk = false)
    (pre post : List DirEntry) :
    ∀ acc, processDirents home (pre ++ e :: post) acc =
      processDirents home (pre ++ post) acc := by
  induction pre with
  | nil =>
    intro acc
    simp only [List.nil_append, processDirents, he]
    cases h1 : e.entryOk <;> simp only [Bool.false_eq_true, if_false, if_true]
    cases h2 : isMdName e.name <;> simp [Bool.false_eq_true, if_false, if_true]
  | cons a pre' ih =>
    intro acc
    simp only [List.cons_append, processDirents]
    cases h1 : a.entryOk <;> simp only [Bool.false_eq_true, if_false, if_true]
    · exact ih acc
    · cases h2 : isMdName a.name <;> simp only [Bool.false_eq_true, if_false, if_true]
      · exact ih acc
      · cases h3 : a.readOk <;> simp only [Bool.false_eq_true, if_false, if_true]
        · exact ih acc
        · cases h4 : a.metaOk <;> simp only [Bool.false_eq_true, if_false, if_true]
          exact ih _

theorem updateFile_find (files : List DirEntry) (n c : RStr) (t : Nat) :
    ∃ e, (updateFile n c t files).find? (fun e => e.name = n) = some e ∧
      e.name = n ∧ e.content = c ∧ e.mtime = t ∧ e.readOk = true ∧ e.metaOk = true := by
  induction files with
  | nil =>
    refine ⟨{ name := n, content := c, mtime := t, entryOk := true, readOk := true,
              metaOk := true, removeOk := true }, ?_, rfl, rfl, rfl, rfl, rfl⟩
    exact List.find?_cons_of_pos _ (by simp)
  | cons a as ih =>
    by_cases ha : a.name = n
    · refine ⟨{ a with content := c, mtime := t, readOk := true, metaOk := true },
        ?_, ha, rfl, rfl, rfl, rfl⟩
      simp only [updateFile, if_pos ha]
      exact List.find?_cons_of_pos _ (by simpa using ha)
    · rcases ih with ⟨e, he, props⟩
      refine ⟨e, ?_, props⟩
      simp only [updateFile, if_neg ha]
      rw [List.find?_cons_of_neg _ (by simpa using ha)]
      exact he

theorem updateFile_find_other (files : List DirEntry) (n c : RStr) (t : Nat) (m : RStr)
    (hne : m ≠ n) :
    (updateFile n c t files).find? (fun e => e.name = m) =
      files.find? (fun e => e.name = m) := by
  induction files with
  | nil =>
    simp only [updateFile, List.find?_nil]
    rw [List.find?_cons_of_neg _ (by simpa using fun h => hne h.symm), List.find?_nil]
  | cons a as ih =>
    by_cases ha : a.name = n
    · have ham : ¬(a.name = m) := fun h => hne (h ▸ ha ▸ rfl)
      simp only [updateFile, if_pos ha]
      rw [List.find?_cons_of_neg _ (by simpa using ham),
        List.find?_cons_of_neg _ (by simpa using ham)]
    · simp only [updateFile, if_neg ha]
      by_cases ham : a.name = m
      · rw [List.find?_cons_of_pos _ (by simpa using ham),
          List.find?_cons_of_pos _ (by simpa using ham)]
      · rw [List.find?_cons_of_neg _ (by simpa using ham),
          List.find?_cons_of_neg _ (by simpa using ham)]
        exact ih

theorem rustTrimStart_length_le (s : RStr) : (rustTrimStart s).length ≤ s.length :=
  (List.dropWhile_sublist ..).length_le

theorem rustTrimEnd_length_le (s : RStr) : (rustTrimEnd s).length ≤ s.length := by
  have h := (List.dropWhile_sublist (l := s.reverse) (p := rustIsWhitespace)).length_le
  simpa [rustTrimEnd] using h

theorem rustTrim_eq_self_start (t : RStr) (h : rustTrim t = t) : rustTrimStart t = t := by
  have h1 : t.length ≤ (rustTrimStart t).length := by
    calc t.length = (rustTrim t).length := by rw [h]
    _ ≤ (rustTrimStart t).length := rustTrimEnd_length_le _
  exact (List.dropWhile_sublist ..).eq_of_length
    (le_antisymm (rustTrimStart_length_le t) h1)

theorem rustTrim_eq_self_end (t : RStr) (h : rustTrim t = t) : rustTrimEnd t = t := by
  have hs := rustTrim_eq_self_start t h
  calc rustTrimEnd t = rustTrimEnd (rustTrimStart t) := by rw [hs]
  _ = t := h

theorem rustTrim_last_not_ws (t : RStr) (h : rustTrim t = t) :
    ∀ c, t.getLast? = some c → rustIsWhitespace c = false := by
  intro c hc
  have he : rustTrimEnd t = t := rustTrim_eq_self_end t h
  have hrev : t.reverse.dropWhile rustIsWhitespace = t.reverse := by
    have := congrArg List.reverse he
    simpa [rustTrimEnd] using this
  have hhead : t.reverse.head? = some c := by
    rw [List.head?_reverse]
    exact hc
  by_contra hws
  have hws' : rustIsWhitespace c = true := by
    cases hcc : rustIsWhitespace c
    · exact absurd hcc hws
    · rfl
  cases hr : t.reverse with
  | nil => rw [hr] at hhead; cases hhead
  | cons x xs =>
    rw [hr] at hhead hrev
    have hx : x = c := by simpa using hhead
    rw [hx, List.dropWhile_cons_of_pos hws'] at hrev
    have := congrArg List.length hrev
    have hle := (List.dropWhile_sublist (l := xs) (p := rustIsWhitespace)).length_le
    simp at this
    omega

theorem rustTrim_head_not_ws (t : RStr) (h : rustTrim t = t) :
    ∀ c, t.head? = some c → rustIsWhitespace c = false := by
  intro c hc
  have hs : t.dropWhile rustIsWhitespace = t := rustTrim_eq_self_start t h
  by_contra hws
  have hws' : rustIsWhitespace c = true := by
    cases hcc : rustIsWhitespace c
    · exact absurd hcc hws
    · rfl
  cases ht : t with
  | nil => rw [ht] at hc; cases hc
  | cons x xs =>
    rw [ht] at hc hs
    have hx : x = c := by simpa using hc
    rw [hx, List.dropWhile_cons_of_pos hws'] at hs
    have := congrArg List.length hs
    have hle := (List.dropWhile_sublist (l := xs) (p := rustIsWhitespace)).length_le
    simp at this
    omega

theorem splitNl_cons_default (c : Char) (cs : RStr) (h1 : c ≠ '\n')
    (h2 : ¬(c = '\r' ∧ cs.head? = some '\n')) :
    splitNl (c :: cs) = match splitNl cs with
      | [] => [[c]]
      | l :: ls => (c :: l) :: ls := by
  rw [splitNl.eq_def]
  split
  · simp_all
  · rcases ‹_ :: _ = _› with h
    exfalso
    apply h2
    cases h
    exact ⟨rfl, rfl⟩
  · cases ‹_ :: _ = _›
    exact absurd rfl h1
  · rename_i heq
    cases heq
    rfl

theorem splitNl_append (l : RStr) (hn : '\n' ∉ l)
    (hr : ∀ c, l.getLast? = some c → c ≠ '\r') (r : RStr) :
    splitNl (l ++ '\n' :: r) = l :: splitNl r := by
  induction l with
  | nil => simp [splitNl]
  | cons c l' ih =>
    have hc : c ≠ '\n' := fun h => hn (h ▸ List.mem_cons_self ..)
    have h2 : ¬(c = '\r' ∧ (l' ++ '\n' :: r).head? = some '\n') := by
      rintro ⟨rfl, hh⟩
      cases l' with
      | nil => exact hr '\r' rfl rfl
      | cons d l'' =>
        simp only [List.cons_append, List.head?_cons] at hh
        apply hn
        rw [show d = '\n' from by simpa using hh]
        exact List.mem_cons_of_mem _ (List.mem_cons_self ..)
    rw [List.cons_append, splitNl_cons_default c _ hc h2]
    have hn' : '\n' ∉ l' := fun h => hn (List.mem_cons_of_mem _ h)
    have hr' : ∀ a, l'.getLast? = some a → a ≠ '\r' := by
      intro a ha
      cases l' with
      | nil => cases ha
      | cons d l'' =>
        apply hr
        rw [List.getLast?_cons_cons]
        exact ha
    rw [ih hn' hr']

theorem rustTrim_space_cons (t : RStr) (ht : rustTrim t = t) :
    rustTrim (' ' :: t) = t := by
  have h1 : rustTrimStart (' ' :: t) = t := by
    show (' ' :: t).dropWhile rustIsWhitespace = t
    rw [List.dropWhile_cons_of_pos (by decide)]
    exact rustTrim_eq_self_start t ht
  show rustTrimEnd (rustTrimStart (' ' :: t)) = t
  rw [h1]
  exact rustTrim_eq_self_end t ht

theorem strippedFirstLine_heading (title : RStr) (ht : rustTrim title = title)
    (hn : '\n' ∉ title) :
    strippedFirstLine ('#' :: ' ' :: title ++ ['\n', '\n']) = title := by
  have hnl : '\n' ∉ '#' :: ' ' :: title := by
    intro h
    rcases List.mem_cons.mp h with h' | h'
    · cases h'
    rcases List.mem_cons.mp h' with h'' | h''
    · cases h''
    · exact hn h''
  have hrl : ∀ c, ('#' :: ' ' :: title).getLast? = some c → c ≠ '\r' := by
    intro c hc
    cases htl : title with
    | nil =>
      rw [htl] at hc
      cases hc
      decide
    | cons d t' =>
      rw [htl, List.getLast?_cons_cons, List.getLast?_cons_cons] at hc
      intro hcr
      have hw := rustTrim_last_not_ws title ht c (by rw [htl]; exact hc)
      rw [hcr] at hw
      exact absurd hw (by decide)
  have hsplit : splitNl ('#' :: ' ' :: title ++ ['\n', '\n']) =
      ('#' :: ' ' :: title) :: splitNl ['\n'] := by
    have := splitNl_append ('#' :: ' ' :: title) hnl hrl ['\n']
    simpa using this
  have hlines : rustLines ('#' :: ' ' :: title ++ ['\n', '\n']) =
      [('#' :: ' ' :: title), []] := by
    rw [rustLines, hsplit]
    rfl
  rw [strippedFirstLine, hlines]
  show rustTrim (trimStartHash ('#' :: ' ' :: title)) = title
  have hth : trimStartHash ('#' :: ' ' :: title) = ' ' :: title := rfl
  rw [hth]
  exact rustTrim_space_cons title ht

theorem rustLen_of_ascii (b : RStr) (h : ∀ c ∈ b, utf8Size c = 1) :
    rustLen b = b.length := by
  induction b with
  | nil => rfl
  | cons c cs ih =>
    have hc : utf8Size c = 1 := h c (List.mem_cons_self ..)
    have hcs : rustLen cs = cs.length := ih (fun x hx => h x (List.mem_cons_of_mem _ hx))
    simp [rustLen, hc] at hcs ⊢
    omega

theorem digitChar_isDigit (n : Nat) : (digitChar n).isDigit = true := by
  unfold digitChar
  have h : n % 10 < 10 := Nat.mod_lt _ (by decide)
  generalize n % 10 = m at h ⊢
  interval_cases m <;> decide

theorem formatTimestampId_length (t : UtcTime) : (formatTimestampId t).length = 19 := by
  simp [formatTimestampId, pad4, pad2]

theorem formatTimestampId_chars (t : UtcTime) :
    ∀ c ∈ formatTimestampId t, c.isDigit = true ∨ c = '-' ∨ c = '_' := by
  intro c hc
  simp only [formatTimestampId, pad4, pad2, List.mem_append, List.mem_cons,
    List.mem_singleton, List.not_mem_nil, or_false] at hc
  casesm* _ ∨ _ <;> rename_i h <;>
    first
      | exact Or.inl (by rw [h]; exact digitChar_isDigit _)
      | exact Or.inr (Or.inl h)
      | exact Or.inr (Or.inr h)

theorem append_mdDotExt_inj (i j : RStr) (h : i ++ mdDotExt = j ++ mdDotExt) : i = j := by
  have hlen : i.length = j.length := by
    have := congrArg List.length h
    simp at this
    omega
  exact (List.append_inj h hlen).1

theorem get_journal_entries_ok (fs : FS) (ms : List JournalEntryMetadata) (fs' : FS)
    (h : get_journal_entries fs = .ok (ms, fs')) :
    fs.homeOk = true ∧ (fs.dirExists || fs.mkdirOk) = true ∧
      fs' = { fs with dirExists := true } ∧
      ∃ raw, processDirents fs.home (if fs.readDirOk then fs.files else []) [] = .ok raw ∧
        ms = sortEntries raw := by
  simp only [get_journal_entries] at h
  cases h1 : fs.homeOk <;> rw [h1] at h <;>
    simp only [Bool.false_eq_true, if_false, if_true] at h
  · cases h
  · cases h2 : (fs.dirExists || fs.mkdirOk) <;> rw [h2] at h <;>
      simp only [Bool.false_eq_true, if_false, if_true] at h
    · cases h
    · cases hp : processDirents fs.home (if fs.readDirOk then fs.files else []) [] with
      | error err => rw [hp] at h; cases h
      | ok raw =>
        rw [hp] at h
        cases h
        exact ⟨rfl, rfl, rfl, raw, rfl, rfl⟩

theorem save_journal_entry_ok (fs : FS) (id content : RStr) (now : Nat) (fs' : FS)
    (h : save_journal_entry fs id content now = .ok fs') :
    fs.homeOk = true ∧
      fs' = { fs with dirExists := true,
                      files := updateFile (id ++ mdDotExt) content now fs.files } := by
  simp only [save_journal_entry] at h
  cases h1 : fs.homeOk <;> rw [h1] at h <;>
    simp only [Bool.false_eq_true, if_false, if_true] at h
  · cases h
  · cases h2 : (fs.dirExists || fs.mkdirOk) <;> rw [h2] at h <;>
      simp only [Bool.false_eq_true, if_false, if_true] at h
    · cases h
    · cases h3 : fs.writeOk <;> rw [h3] at h <;>
        simp only [Bool.false_eq_true, if_false, if_true] at h
      · cases h
      · cases h
        exact ⟨rfl, rfl⟩

theorem create_journal_entry_ok (fs : FS) (title : RStr) (now : UtcTime) (id : RStr)
    (fs' : FS) (h : create_journal_entry fs title now = .ok (id, fs')) :
    fs.homeOk = true ∧ id = formatTimestampId now ∧
      fs' = { fs with dirExists := true,
                      files := updateFile (formatTimestampId now ++ mdDotExt)
                        ('#' :: ' ' :: title ++ ['\n', '\n']) now.instant fs.files } := by
  simp only [create_journal_entry] at h
  cases h1 : fs.homeOk <;> rw [h1] at h <;>
    simp only [Bool.false_eq_true, if_false, if_true] at h
  · cases h
  · cases h2 : (fs.dirExists || fs.mkdirOk) <;> rw [h2] at h <;>
      simp only [Bool.false_eq_true, if_false, if_true] at h
    · cases h
    · cases h3 : fs.writeOk <;> rw [h3] at h <;>
        simp only [Bool.false_eq_true, if_false, if_true] at h
      · cases h
      · cases h
        exact ⟨rfl, rfl, rfl⟩

theorem find?_filter_self_none (files : List DirEntry) (n : RStr) :
    (files.filter (fun e2 => !(e2.name = n : Bool))).find? (fun e => e.name = n) = none := by
  apply List.find?_eq_none.mpr
  intro x hx
  rcases List.mem_filter.mp hx with ⟨-, hkeep⟩
  simpa using hkeep

theorem find?_filter_of_imp (l : List DirEntry) (p q : DirEntry → Bool)
    (h : ∀ x, p x = false → q x = false) :
    (l.filter p).find? q = l.find? q := by
  induction l with
  | nil => rfl
  | cons a as ih =>
    cases hp : p a
    · rw [List.filter_cons_of_neg (by simp [hp])]
      rw [List.find?_cons_of_neg _ (by simp [h a hp])]
      exact ih
    · rw [List.filter_cons_of_pos (by simp [hp])]
      cases hq : q a
      · rw [List.find?_cons_of_neg _ (by simp [hq]), List.find?_cons_of_neg _ (by simp [hq])]
        exact ih
      · rw [List.find?_cons_of_pos _ (by simp [hq]), List.find?_cons_of_pos _ (by simp [hq])]

theorem get_journal_entry_found (fs : FS) (id : RStr) (f : DirEntry)
    (h1 : fs.homeOk = true) (hf : findFile fs (id ++ mdDotExt) = some f)
    (h2 : f.readOk = true) (h3 : f.metaOk = true) :
    get_journal_entry fs id =
      .ok { id := id, title := deriveTitle f.content id, content := f.content,
            created_at := f.mtime, modified_at := f.mtime,
            file_path := entryFilePath fs.home (id ++ mdDotExt) } := by
  simp [get_journal_entry, h1, hf, h2, h3]

/-- Claim C3: a successful `save(id, content)` followed by `get(id)` returns
exactly that `content`, and — assuming the file-system clock is monotone, so
that the previously observed modification time is at most the write instant
`now` — the `modified_at` observed after the save is at least the one
observed before it. -/
theorem C3_save_get_roundtrip (fs : FS) (id content : RStr) (now : Nat) (fs' : FS)
    (hsave : save_journal_entry fs id content now = .ok fs') :
    ∃ e, get_journal_entry fs' id = .ok e ∧ e.content = content ∧
      e.modified_at = now ∧
      (∀ e₀, get_journal_entry fs id = .ok e₀ → e₀.modified_at ≤ now →
        e₀.modified_at ≤ e.modified_at) := by
  rcases save_journal_entry_ok fs id content now fs' hsave with ⟨h1, rfl⟩
  rcases updateFile_find fs.files (id ++ mdDotExt) content now with
    ⟨f, hfind, hname, hcont, ht, hro, hmo⟩
  have hff : findFile
      { fs with dirExists := true,
                files := updateFile (id ++ mdDotExt) content now fs.files }
      (id ++ mdDotExt) = some f := by
    simp only [findFile, if_true]
    exact hfind
  refine ⟨_, get_journal_entry_found _ _ _ h1 hff hro hmo, hcont, ht, ?_⟩
  intro e₀ h₀ hle
  simpa [ht] using hle

/-- Claim C4: the list returned by `get_journal_entries` is sorted descending
by `modified_at`: every adjacent pair `(a, b)` satisfies
`b.modified_at ≤ a.modified_at` (ties keep directory order — both the Rust
`sort_by` and the embedded insertion sort are stable). -/
theorem C4_list_sorted_desc (fs : FS) (ms : List JournalEntryMetadata) (fs' : FS)
    (h : get_journal_entries fs = .ok (ms, fs')) :
    ms.Chain' (fun a b => b.modified_at ≤ a.modified_at) := by
  rcases get_journal_entries_ok fs ms fs' h with ⟨-, -, -, raw, -, rfl⟩
  exact List.Pairwise.chain' (sortEntries_sorted raw)

/-- Claim C6: `get(id)` fails with `NotFound` exactly when the file
`<entries>/<id>.md` does not exist; when it exists and is readable, `get`
returns the full entry, its `content` being the complete file content. -/
theorem C6_get_notfound_or_full (fs : FS) (id : RStr) (h1 : fs.homeOk = true) :
    (findFile fs (id ++ mdDotExt) = none →
      get_journal_entry fs id = .error .entryNotFound) ∧
    (∀ f, findFile fs (id ++ mdDotExt) = some f → f.readOk = true →
      f.metaOk = true →
      ∃ e, get_journal_entry fs id = .ok e ∧ e.content = f.content ∧
        e.id = id ∧ e.modified_at = f.mtime) := by
  constructor
  · intro hf
    simp [get_journal_entry, h1, hf]
  · intro f hf h2 h3
    exact ⟨_, get_journal_entry_found fs id f h1 hf h2 h3, rfl, rfl, rfl⟩

/-- Claim C7: `delete(id)` on a missing file succeeds as a no-op leaving the
state unchanged, and after any successful delete a second delete also
succeeds — delete is idempotent. -/
theorem C7_delete_idempotent (fs : FS) (id : RStr) :
    (fs.homeOk = true → findFile fs (id ++ mdDotExt) = none →
      delete_journal_entry fs id = .ok fs) ∧
    (∀ fs', delete_journal_entry fs id = .ok fs' →
      delete_journal_entry fs' id = .ok fs') := by
  constructor
  · intro h1 hf
    simp [delete_journal_entry, h1, hf]
  · intro fs' h
    simp only [delete_journal_entry] at h
    cases h1 : fs.homeOk <;> rw [h1] at h <;>
      simp only [Bool.false_eq_true, if_false, if_true] at h
    · cases h
    · cases hf : findFile fs (id ++ mdDotExt) with
      | none =>
        rw [hf] at h
        cases h
        simp [delete_journal_entry, h1, hf]
      | some f =>
        simp only [hf] at h
        cases h2 : f.removeOk <;> simp only [h2, Bool.false_eq_true, if_false, if_true] at h
        · cases h
        · cases h
          simp only [delete_journal_entry, findFile]
          have hnone : fs.files.find? (fun _ => false) = none :=
            List.find?_eq_none.mpr (fun x _ => by simp)
          cases hd : fs.dirExists <;> simp [hd, find?_filter_self_none, hnone]

/-- Claim C8: every metadata row returned by `get_journal_entries` and every
entry returned by `get_journal_entry` has `created_at = modified_at` — both
are copies of the file-system modification time taken at read time. -/
theorem C8_created_eq_modified (fs : FS) (id : RStr) :
    (∀ ms fs', get_journal_entries fs = .ok (ms, fs') →
      ∀ m ∈ ms, m.created_at = m.modified_at) ∧
    (∀ e, get_journal_entry fs id = .ok e → e.created_at = e.modified_at) := by
  constructor
  · intro ms fs' h m hm
    rcases get_journal_entries_ok fs ms fs' h with ⟨-, -, -, raw, hraw, rfl⟩
    have hm' : m ∈ raw := (sortEntries_mem m raw).mp hm
    rcases processDirents_mem _ _ _ _ hraw m hm' with h' | ⟨e, -, -, -, -, -, rfl⟩
    · exact absurd h' (List.not_mem_nil m)
    · rfl
  · intro e h
    simp only [get_journal_entry] at h
    cases h1 : fs.homeOk <;> rw [h1] at h <;>
      simp only [Bool.false_eq_true, if_false, if_true] at h
    · cases h
    · cases hf : findFile fs (id ++ mdDotExt) with
      | none =>
        simp only [hf] at h
        cases h
      | some f =>
        simp only [hf] at h
        cases h2 : f.readOk <;> simp only [h2, Bool.false_eq_true, if_false, if_true] at h
        · cases h
        · cases h3 : f.metaOk <;> simp only [h3, Bool.false_eq_true, if_false, if_true] at h
          · cases h
          · cases h
            rfl

/-- Claim C9: on an empty or not-yet-existing entries directory (created on
demand, `mkdir` succeeding), `get_journal_entries` returns the empty list —
never an error — and leaves the directory existing. -/
theorem C9_list_empty_dir (fs : FS) (h1 : fs.homeOk = true)
    (h2 : fs.dirExists = false → fs.mkdirOk = true) (h3 : fs.files = []) :
    get_journal_entries fs = .ok ([], { fs with dirExists := true }) := by
  have hor : (fs.dirExists || fs.mkdirOk) = true := by
    cases hd : fs.dirExists
    · simp [h2 hd]
    · simp
  simp only [get_journal_entries, h1, hor, if_true, h3]
  cases hr : fs.readDirOk <;> simp [processDirents, sortEntries]

/-- Claim C10: for distinct separator-free ids `i ≠ j`, `save(i, _)` and
`delete(i)` leave the directory entry named `j.md` (existence and content)
untouched, and `create` writes only the file named for its generated id. -/
theorem C10_frame (i j : RStr) (hij : i ≠ j)
    (_hi : '/' ∉ i ∧ '\\' ∉ i) (_hj : '/' ∉ j ∧ '\\' ∉ j) :
    (∀ fs fs' c now, save_journal_entry fs i c now = .ok fs' →
      fs'.files.find? (fun e => e.name = j ++ mdDotExt) =
        fs.files.find? (fun e => e.name = j ++ mdDotExt)) ∧
    (∀ fs fs', delete_journal_entry fs i = .ok fs' →
      fs'.files.find? (fun e => e.name = j ++ mdDotExt) =
        fs.files.find? (fun e => e.name = j ++ mdDotExt)) ∧
    (∀ fs title now id fs', create_journal_entry fs title now = .ok (id, fs') →
      ∀ n, n ≠ id ++ mdDotExt →
        fs'.files.find? (fun e => e.name = n) = fs.files.find? (fun e => e.name = n)) := by
  have hji : (j ++ mdDotExt) ≠ (i ++ mdDotExt) :=
    fun hh => hij (append_mdDotExt_inj j i hh).symm
  refine ⟨?_, ?_, ?_⟩
  · intro fs fs' c now h
    rcases save_journal_entry_ok fs i c now fs' h with ⟨-, rfl⟩
    exact updateFile_find_other fs.files (i ++ mdDotExt) c now (j ++ mdDotExt) hji
  · intro fs fs' h
    simp only [delete_journal_entry] at h
    cases h1 : fs.homeOk <;> rw [h1] at h <;>
      simp only [Bool.false_eq_true, if_false, if_true] at h
    · cases h
    · cases hf : findFile fs (i ++ mdDotExt) with
      | none =>
        simp only [hf] at h
        cases h
        rfl
      | some f =>
        simp only [hf] at h
        cases h2 : f.removeOk <;>
          simp only [h2, Bool.false_eq_true, if_false, if_true] at h
        · cases h
        · cases h
          apply find?_filter_of_imp
          intro x hx
          have hxi : x.name = i ++ mdDotExt := by
            by_contra hc
            simp [hc] at hx
          simp [hxi, hji.symm]
  · intro fs title now id fs' h n hn
    rcases create_journal_entry_ok fs title now id fs' h with ⟨-, rfl, rfl⟩
    exact updateFile_find_other fs.files (formatTimestampId now ++ mdDotExt) _ _ n hn

/-- Witness for C3: saving `"# N\nbody"` under id `"n"` into an empty store
and reading it back returns exactly that content, stamped with the write
instant 42. -/
theorem C3_witness :
    save_journal_entry (sampleFS []) "n".data "# N\nbody".data 42 =
      .ok (sampleFS [mkFile "n.md" "# N\nbody" 42]) ∧
    (∃ e, get_journal_entry (sampleFS [mkFile "n.md" "# N\nbody" 42]) "n".data = .ok e ∧
      e.content = "# N\nbody".data ∧ e.modified_at = 42 ∧
      (∀ e₀, get_journal_entry (sampleFS []) "n".data = .ok e₀ → e₀.modified_at ≤ 42 →
        e₀.modified_at ≤ e.modified_at)) :=
  ⟨by decide,
   C3_save_get_roundtrip (sampleFS []) "n".data "# N\nbody".data 42
     (sampleFS [mkFile "n.md" "# N\nbody" 42]) (by decide)⟩

/-- Witness for C4: a two-file store lists its entries newest-first and the
result is descending in `modified_at`. -/
theorem C4_witness :
    get_journal_entries (sampleFS [mkFile "b.md" "# B\nx" 5, mkFile "a.md" "# A\ny" 9]) =
      .ok (([⟨"a".data, "A".data, 9, 9, "/home/u/Documents/Diaryx/entries/a.md".data, "y".data⟩,
             ⟨"b".data, "B".data, 5, 5, "/home/u/Documents/Diaryx/entries/b.md".data, "x".data⟩] :
             List JournalEntryMetadata),
           sampleFS [mkFile "b.md" "# B\nx" 5, mkFile "a.md" "# A\ny" 9]) ∧
    List.Chain' (fun a b => b.modified_at ≤ a.modified_at)
      ([⟨"a".data, "A".data, 9, 9, "/home/u/Documents/Diaryx/entries/a.md".data, "y".data⟩,
        ⟨"b".data, "B".data, 5, 5, "/home/u/Documents/Diaryx/entries/b.md".data, "x".data⟩] :
        List JournalEntryMetadata) :=
  ⟨by decide,
   C4_list_sorted_desc (sampleFS [mkFile "b.md" "# B\nx" 5, mkFile "a.md" "# A\ny" 9])
     ([⟨"a".data, "A".data, 9, 9, "/home/u/Documents/Diaryx/entries/a.md".data, "y".data⟩,
       ⟨"b".data, "B".data, 5, 5, "/home/u/Documents/Diaryx/entries/b.md".data, "x".data⟩] :
       List JournalEntryMetadata)
     (sampleFS [mkFile "b.md" "# B\nx" 5, mkFile "a.md" "# A\ny" 9]) (by decide)⟩

/-- Witness for C6: in a store holding only `a.md`, `get "zzz"` fails with
the not-found error and `get "a"` returns the full content. -/
theorem C6_witness :
    get_journal_entry (sampleFS [mkFile "a.md" "# A\nbody" 7]) "zzz".data =
      .error .entryNotFound ∧
    (∃ e, get_journal_entry (sampleFS [mkFile "a.md" "# A\nbody" 7]) "a".data = .ok e ∧
      e.content = (mkFile "a.md" "# A\nbody" 7).content ∧ e.id = "a".data ∧
      e.modified_at = (mkFile "a.md" "# A\nbody" 7).mtime) :=
  ⟨(C6_get_notfound_or_full (sampleFS [mkFile "a.md" "# A\nbody" 7]) "zzz".data
      (by decide)).1 (by decide),
   (C6_get_notfound_or_full (sampleFS [mkFile "a.md" "# A\nbody" 7]) "a".data
      (by decide)).2 (mkFile "a.md" "# A\nbody" 7) (by decide) (by decide) (by decide)⟩

/-- Witness for C7: deleting a missing id is a no-op, and a second delete
after a successful one also succeeds. -/
theorem C7_witness :
    delete_journal_entry (sampleFS [mkFile "a.md" "x" 1]) "b".data =
      .ok (sampleFS [mkFile "a.md" "x" 1]) ∧
    delete_journal_entry (sampleFS []) "a".data = .ok (sampleFS []) :=
  ⟨(C7_delete_idempotent (sampleFS [mkFile "a.md" "x" 1]) "b".data).1 (by decide) (by decide),
   (C7_delete_idempotent (sampleFS [mkFile "a.md" "x" 1]) "a".data).2 (sampleFS [])
     (by decide)⟩

/-- Witness for C8: the listed metadata and the fetched entry of a concrete
store both carry `created_at = modified_at`. -/
theorem C8_witness :
    (⟨"a".data, "t".data, 3, 3, "/home/u/Documents/Diaryx/entries/a.md".data,
      "b".data⟩ : JournalEntryMetadata).created_at =
      (⟨"a".data, "t".data, 3, 3, "/home/u/Documents/Diaryx/entries/a.md".data,
        "b".data⟩ : JournalEntryMetadata).modified_at ∧
    (⟨"a".data, "t".data, "t\nb".data, 3, 3,
      "/home/u/Documents/Diaryx/entries/a.md".data⟩ : JournalEntry).created_at =
      (⟨"a".data, "t".data, "t\nb".data, 3, 3,
        "/home/u/Documents/Diaryx/entries/a.md".data⟩ : JournalEntry).modified_at :=
  ⟨(C8_created_eq_modified (sampleFS [mkFile "a.md" "t\nb" 3]) "a".data).1
     [⟨"a".data, "t".data, 3, 3, "/home/u/Documents/Diaryx/entries/a.md".data, "b".data⟩]
     (sampleFS [mkFile "a.md" "t\nb" 3]) (by decide) _ (by decide),
   (C8_created_eq_modified (sampleFS [mkFile "a.md" "t\nb" 3]) "a".data).2
     ⟨"a".data, "t".data, "t\nb".data, 3, 3,
      "/home/u/Documents/Diaryx/entries/a.md".data⟩ (by decide)⟩

/-- Witness for C9: listing a store whose entries directory does not yet
exist (but can be created) yields the empty list and the created
directory. -/
theorem C9_witness :
    get_journal_entries
      { homeOk := true, home := "/home/u".data, dirExists := false, mkdirOk := true,
        readDirOk := true, writeOk := true, files := [] } = .ok ([], sampleFS []) :=
  C9_list_empty_dir
    { homeOk := true, home := "/home/u".data, dirExists := false, mkdirOk := true,
      readDirOk := true, writeOk := true, files := [] }
    (by decide) (fun _ => by decide) (by decide)

/-- Witness for C10: with files `a.md` and `b.md` present, saving id `"a"`,
deleting id `"a"`, and creating an entry all leave the lookup of `b.md`
unchanged. -/
theorem C10_witness :
    (sampleFS [mkFile "b.md" "y" 2, mkFile "a.md" "x" 5]).files.find?
        (fun e => e.name = "b".data ++ mdDotExt) =
      (sampleFS [mkFile "b.md" "y" 2]).files.find?
        (fun e => e.name = "b".data ++ mdDotExt) ∧
    (sampleFS [mkFile "b.md" "y" 2]).files.find?
        (fun e => e.name = "b".data ++ mdDotExt) =
      (sampleFS [mkFile "b.md" "y" 2, mkFile "a.md" "x" 5]).files.find?
        (fun e => e.name = "b".data ++ mdDotExt) := by
  constructor
  · exact (C10_frame "a".data "b".data (by decide) (by decide) (by decide)).1
      (sampleFS [mkFile "b.md" "y" 2]) (sampleFS [mkFile "b.md" "y" 2, mkFile "a.md" "x" 5])
      "x".data 5 (by decide)
  · exact (C10_frame "a".data "b".data (by decide) (by decide) (by decide)).2.1
      (sampleFS [mkFile "b.md" "y" 2, mkFile "a.md" "x" 5]) (sampleFS [mkFile "b.md" "y" 2])
      (by decide)

set_option maxRecDepth 100000 in
/-- Counterexample to C1 as stated: a body of exactly 100 characters (100
copies of the two-byte character `é`) yields a preview that is NOT the body
verbatim — the code's ellipsis test `content_without_title.len() > 150`
counts UTF-8 bytes (200 here), so the marker is appended to the untruncated
body. -/
theorem C1_counterexample :
    (contentWithoutTitle ('t' :: '\n' :: List.replicate 100 'é')).length = 100 ∧
    get_journal_entries (sampleFS
        [⟨"e.md".data, 't' :: '\n' :: List.replicate 100 'é', 1, true, true, true, true⟩]) =
      .ok ([⟨"e".data, "t".data, 1, 1,
             "/home/u/Documents/Diaryx/entries/e.md".data,
             List.replicate 100 'é' ++ ellipsisMarker⟩],
           sampleFS
             [⟨"e.md".data, 't' :: '\n' :: List.replicate 100 'é', 1, true, true, true,
               true⟩]) ∧
    List.replicate 100 'é' ++ ellipsisMarker ≠ List.replicate 100 'é' := by
  refine ⟨by decide, ?_, by decide⟩
  decide

/-- Claim C1, amended: every listed preview is the first 150 CHARACTERS of
the body (content minus its first line), with the ellipsis marker appended
iff the body's UTF-8 BYTE length exceeds 150; consequently, for an all-ASCII
body (every character one byte) a 100-character body gives the preview
verbatim with no marker, and a 200-character body gives exactly 150
characters plus the marker. -/
theorem C1_preview_bytes (fs : FS) (ms : List JournalEntryMetadata) (fs' : FS)
    (m : JournalEntryMetadata) (h : get_journal_entries fs = .ok (ms, fs'))
    (hm : m ∈ ms) :
    ∃ e ∈ fs.files, m.preview = rustPreview e.content ∧
      m.preview = (contentWithoutTitle e.content).take 150 ++
        (if 150 < rustLen (contentWithoutTitle e.content) then ellipsisMarker else []) ∧
      ((∀ c ∈ contentWithoutTitle e.content, utf8Size c = 1) →
        ((contentWithoutTitle e.content).length = 100 →
          m.preview = contentWithoutTitle e.content) ∧
        ((contentWithoutTitle e.content).length = 200 →
          m.preview = (contentWithoutTitle e.content).take 150 ++ ellipsisMarker ∧
          m.preview.length = 153)) := by
  rcases get_journal_entries_ok fs ms fs' h with ⟨-, -, -, raw, hraw, rfl⟩
  have hm' : m ∈ raw := (sortEntries_mem m raw).mp hm
  rcases processDirents_mem _ _ _ _ hraw m hm' with h' | ⟨e, he, -, -, -, -, rfl⟩
  · exact absurd h' (List.not_mem_nil m)
  · have hef : e ∈ fs.files := by
      cases hr : fs.readDirOk <;> rw [hr] at he
      · simp at he
      · simpa using he
    refine ⟨e, hef, rfl, rfl, ?_⟩
    intro hascii
    have hlen : rustLen (contentWithoutTitle e.content) =
        (contentWithoutTitle e.content).length := rustLen_of_ascii _ hascii
    constructor
    · intro h100
      show rustPreview e.content = contentWithoutTitle e.content
      simp only [rustPreview, hlen, h100]
      rw [if_neg (by omega)]
      rw [List.take_of_length_le (by omega), List.append_nil]
    · intro h200
      have hpre : rustPreview e.content =
          (contentWithoutTitle e.content).take 150 ++ ellipsisMarker := by
        simp only [rustPreview, hlen, h200]
        rw [if_pos (by omega)]
      refine ⟨hpre, ?_⟩
      show (rustPreview e.content).length = 153
      rw [hpre]
      simp [List.length_take, h200, ellipsisMarker]

/-- Counterexample to C2 as stated: one file whose metadata call fails makes
the whole listing return an error — the healthy file `good.md` is not
returned. -/
theorem C2_counterexample :
    get_journal_entries (sampleFS
        [mkFile "good.md" "# G\nfine" 5,
         ⟨"bad.md".data, "x".data, 3, true, true, false, true⟩]) =
      .error .metadataFailed := by decide

/-- Claim C2, amended: a per-file READ failure skips that file silently and
the rest of the listing is unchanged; but a per-file METADATA (or
modified-time) failure aborts the whole listing with an error (the `?`
operators on lib.rs lines 52 and 55). -/
theorem C2_read_skip_meta_abort (fs : FS) :
    (∀ pre e post, fs.files = pre ++ e :: post → e.readOk = false →
      (get_journal_entries fs).map Prod.fst =
        (get_journal_entries { fs with files := pre ++ post }).map Prod.fst) ∧
    (∀ e ∈ fs.files, fs.homeOk = true → (fs.dirExists || fs.mkdirOk) = true →
      fs.readDirOk = true → e.entryOk = true → isMdName e.name = true →
      e.readOk = true → e.metaOk = false →
      get_journal_entries fs = .error .metadataFailed) := by
  constructor
  · intro pre e post hsplit hro
    simp only [get_journal_entries]
    cases h1 : fs.homeOk <;> simp only [h1, Bool.false_eq_true, if_false, if_true]
    cases h2 : (fs.dirExists || fs.mkdirOk) <;>
      simp only [h2, Bool.false_eq_true, if_false, if_true]
    all_goals
      cases hr : fs.readDirOk <;>
        simp only [hr, Bool.false_eq_true, if_false, if_true]
    all_goals try rfl
    all_goals
      rw [hsplit, processDirents_skip_read fs.home e hro pre post]
      cases hp : processDirents fs.home (pre ++ post) [] <;> rfl
  · intro e he h1 h2 hr h3 h4 h5 h6
    simp only [get_journal_entries, h1, h2, hr, if_true]
    rw [processDirents_metaFail fs.home fs.files ⟨e, he, h3, h4, h5, h6⟩]

/-- Counterexample to C5 as stated: creating an entry whose title has a
trailing space (`"a "`) writes the heading `"# a \n\n"`; the first line's
stripped form of the content a subsequent get returns is `"a"`, not the
title `"a "`. -/
theorem C5_counterexample :
    create_journal_entry (sampleFS []) "a ".data sampleTime =
      .ok ("2026-10-12_03-04-05".data,
           sampleFS [mkFile "2026-10-12_03-04-05.md" "# a \n\n" 77]) ∧
    get_journal_entry (sampleFS [mkFile "2026-10-12_03-04-05.md" "# a \n\n" 77])
        "2026-10-12_03-04-05".data =
      .ok ⟨"2026-10-12_03-04-05".data, "a".data, "# a \n\n".data, 77, 77,
           "/home/u/Documents/Diaryx/entries/2026-10-12_03-04-05.md".data⟩ ∧
    strippedFirstLine "# a \n\n".data = "a".data ∧
    "a".data ≠ "a ".data := by
  refine ⟨by decide, by decide, by decide, by decide⟩

/-- Claim C5, amended: for a title containing no newline and no leading or
trailing whitespace (`trim`-invariant), `create(title)` generates its id by
formatting the current UTC instant as `YYYY-MM-DD_HH-MM-SS` (19 characters,
digits with `-` and `_` separators), writes the initial body
`"# " ++ title ++ "\n\n"` (a heading line and a blank line), and a
subsequent get of that id returns content whose first line's stripped form
equals the title. -/
theorem C5_create_get_title (fs : FS) (title : RStr) (now : UtcTime) (id : RStr)
    (fs' : FS) (hc : create_journal_entry fs title now = .ok (id, fs'))
    (ht : rustTrim title = title) (hn : '\n' ∉ title) :
    id = formatTimestampId now ∧ id.length = 19 ∧
    (∀ c ∈ id, c.isDigit = true ∨ c = '-' ∨ c = '_') ∧
    ∃ e, get_journal_entry fs' id = .ok e ∧
      e.content = '#' :: ' ' :: title ++ ['\n', '\n'] ∧
      strippedFirstLine e.content = title := by
  rcases create_journal_entry_ok fs title now id fs' hc with ⟨h1, rfl, rfl⟩
  refine ⟨rfl, formatTimestampId_length now, formatTimestampId_chars now, ?_⟩
  rcases updateFile_find fs.files (formatTimestampId now ++ mdDotExt)
      ('#' :: ' ' :: title ++ ['\n', '\n']) now.instant with
    ⟨f, hfind, -, hcont, -, hro, hmo⟩
  have hff : findFile
      { fs with dirExists := true,
                files := updateFile (formatTimestampId now ++ mdDotExt)
                  ('#' :: ' ' :: title ++ ['\n', '\n']) now.instant fs.files }
      (formatTimestampId now ++ mdDotExt) = some f := by
    simp only [findFile, if_true]
    exact hfind
  refine ⟨_, get_journal_entry_found _ _ _ h1 hff hro hmo, hcont, ?_⟩
  show strippedFirstLine f.content = title
  rw [hcont]
  exact strippedFirstLine_heading title ht hn

/-- Witness for the amended C1: in a concrete listing, the preview of
`a.md` is governed by the byte-length rule. -/
theorem C1_witness :
    ∃ e ∈ (sampleFS [mkFile "a.md" "# A\nhello" 4]).files,
      (⟨"a".data, "A".data, 4, 4, "/home/u/Documents/Diaryx/entries/a.md".data,
        "hello".data⟩ : JournalEntryMetadata).preview = rustPreview e.content ∧
      (⟨"a".data, "A".data, 4, 4, "/home/u/Documents/Diaryx/entries/a.md".data,
        "hello".data⟩ : JournalEntryMetadata).preview =
        (contentWithoutTitle e.content).take 150 ++
        (if 150 < rustLen (contentWithoutTitle e.content) then ellipsisMarker else []) ∧
      ((∀ c ∈ contentWithoutTitle e.content, utf8Size c = 1) →
        ((contentWithoutTitle e.content).length = 100 →
          (⟨"a".data, "A".data, 4, 4, "/home/u/Documents/Diaryx/entries/a.md".data,
            "hello".data⟩ : JournalEntryMetadata).preview =
            contentWithoutTitle e.content) ∧
        ((contentWithoutTitle e.content).length = 200 →
          (⟨"a".data, "A".data, 4, 4, "/home/u/Documents/Diaryx/entries/a.md".data,
            "hello".data⟩ : JournalEntryMetadata).preview =
            (contentWithoutTitle e.content).take 150 ++ ellipsisMarker ∧
          (⟨"a".data, "A".data, 4, 4, "/home/u/Documents/Diaryx/entries/a.md".data,
            "hello".data⟩ : JournalEntryMetadata).preview.length = 153)) :=
  C1_preview_bytes (sampleFS [mkFile "a.md" "# A\nhello" 4])
    [⟨"a".data, "A".data, 4, 4, "/home/u/Documents/Diaryx/entries/a.md".data,
      "hello".data⟩]
    (sampleFS [mkFile "a.md" "# A\nhello" 4])
    ⟨"a".data, "A".data, 4, 4, "/home/u/Documents/Diaryx/entries/a.md".data,
     "hello".data⟩
    (by decide) (by decide)

/-- Witness for the amended C2: dropping the read-failing `bad.md` leaves
the listing unchanged, and a metadata-failing file aborts the listing. -/
theorem C2_witness :
    (get_journal_entries (sampleFS [mkFile "good.md" "# G\nfine" 5,
        ⟨"bad.md".data, "x".data, 3, true, false, true, true⟩])).map Prod.fst =
      (get_journal_entries { sampleFS [mkFile "good.md" "# G\nfine" 5,
          ⟨"bad.md".data, "x".data, 3, true, false, true, true⟩] with
          files := [mkFile "good.md" "# G\nfine" 5] ++ [] }).map Prod.fst ∧
    get_journal_entries (sampleFS [mkFile "good.md" "# G\nfine" 5,
        ⟨"bad.md".data, "x".data, 3, true, true, false, true⟩]) =
      .error .metadataFailed :=
  ⟨(C2_read_skip_meta_abort (sampleFS [mkFile "good.md" "# G\nfine" 5,
      ⟨"bad.md".data, "x".data, 3, true, false, true, true⟩])).1
     [mkFile "good.md" "# G\nfine" 5]
     ⟨"bad.md".data, "x".data, 3, true, false, true, true⟩ [] (by decide) (by decide),
   (C2_read_skip_meta_abort (sampleFS [mkFile "good.md" "# G\nfine" 5,
      ⟨"bad.md".data, "x".data, 3, true, true, false, true⟩])).2
     ⟨"bad.md".data, "x".data, 3, true, true, false, true⟩ (by decide) (by decide)
     (by decide) (by decide) (by decide) (by decide) (by decide) (by decide)⟩

/-- Witness for the amended C5: creating `"My Day"` at the sample instant
yields the formatted id and a heading whose stripped first line is the
title. -/
theorem C5_witness :
    rustTrim "My Day".data = "My Day".data ∧ ('\n' ∉ "My Day".data) ∧
    ("2026-10-12_03-04-05".data = formatTimestampId sampleTime ∧
     ("2026-10-12_03-04-05".data).length = 19 ∧
     (∀ c ∈ ("2026-10-12_03-04-05".data : RStr),
        c.isDigit = true ∨ c = '-' ∨ c = '_') ∧
     ∃ e, get_journal_entry
         (sampleFS [mkFile "2026-10-12_03-04-05.md" "# My Day\n\n" 77])
         "2026-10-12_03-04-05".data = .ok e ∧
       e.content = '#' :: ' ' :: "My Day".data ++ ['\n', '\n'] ∧
       strippedFirstLine e.content = "My Day".data) :=
  ⟨by decide, by decide,
   C5_create_get_title (sampleFS []) "My Day".data sampleTime
     "2026-10-12_03-04-05".data
     (sampleFS [mkFile "2026-10-12_03-04-05.md" "# My Day\n\n" 77])
     (by decide) (by decide) (by decide)⟩
